import Mathlib

/-!
Verification of the subtitle acquisition and normalization pipeline of
`youtube-sub-dl` (src/app.py, src/playlist_selector.py).

Text is modelled at the character level: a Python string is a `List Char`,
a text file is a `List (List Char)` of its newline-separated lines (each
line written to disk followed by a single `'\n'`).  Python's `\d` is
modelled by `Char.isDigit`; all inputs of interest are ASCII.
-/

/-- Python `str.startswith`: `p` is a prefix of `l`. -/
def startsWith : List Char → List Char → Bool
  | [], _ => true
  | _ :: _, [] => false
  | p :: ps, c :: cs => p = c && startsWith ps cs

/-- Python `pat in s`: `p` occurs as a contiguous subsequence of `l`. -/
def containsSeq (p : List Char) : List Char → Bool
  | [] => startsWith p []
  | c :: cs => startsWith p (c :: cs) || containsSeq p cs

/-- Whitespace characters recognised by Python `str.strip()` (ASCII part). -/
def pySpace (c : Char) : Bool :=
  c = ' ' || c = '\t' || c = '\n' || c = '\r' || c = '\x0b' || c = '\x0c'

/-- Python `str.strip()`: drop whitespace from both ends. -/
def pyStrip (l : List Char) : List Char :=
  ((l.dropWhile pySpace).reverse.dropWhile pySpace).reverse

/-- Python `s.split(sep)` for a single-character separator. -/
def splitChar (sep : Char) : List Char → List (List Char)
  | [] => [[]]
  | a :: as =>
    match splitChar sep as with
    | [] => [[]]
    | g :: gs => if a = sep then [] :: g :: gs else (a :: g) :: gs

/-- Python `s.split(pat)[0]` for a non-empty separator `pat`: the text
before the first occurrence of `pat`, or all of `l` when `pat` is absent. -/
def takeBefore (pat : List Char) : List Char → List Char
  | [] => []
  | c :: rest => if startsWith pat (c :: rest) then [] else c :: takeBefore pat rest

/-- Decimal digits of `m`, most significant first.  The fuel argument
keeps the recursion structural; `fuel = m` is always enough since
`(m + 1) / 10 ≤ m`. -/
def natLineGo : Nat → Nat → List Char
  | _, 0 => []
  | 0, _ + 1 => []
  | fuel + 1, m + 1 => natLineGo fuel ((m + 1) / 10) ++ [Nat.digitChar ((m + 1) % 10)]

/-- Python `str(n)` for a natural number: its decimal digit characters. -/
def natLine (n : Nat) : List Char :=
  if n = 0 then ['0'] else natLineGo n n

/-- `re.match(r'^\d+$', line.strip())`: the stripped line is a non-empty
run of decimal digits (a cue index line). -/
def matchesIndexLine (l : List Char) : Bool :=
  let s := pyStrip l
  !s.isEmpty && s.all Char.isDigit

/-! ## `combine_subtitles` (src/app.py lines 217-248)

Per-item subtitle files are combined into one document.  For each item the
loop first writes a title separator chunk, then copies the item body
line by line, replacing every line whose stripped form matches `^\d+$`
with the running cue counter `cue_index` (incremented after each use, and
never reset between items). -/

/-- The separator chunk `"\n\n=== {title} ===\n\n"` (markup formats) or
`"\n\n### {title} ###\n\n"` (txt), as lines. -/
def separatorLines (fmt title : List Char) : List (List Char) :=
  if fmt ≠ ("txt").data then
    [[], [], ("=== ").data ++ title ++ (" ===").data, []]
  else
    [[], [], ("### ").data ++ title ++ (" ###").data, []]

/-- The inner `while` loop of `combine_subtitles` over one item body:
index lines are replaced by the counter, all other lines copied verbatim.
Returns the final counter and the emitted lines. -/
def renumberLines : Nat → List (List Char) → Nat × List (List Char)
  | c, [] => (c, [])
  | c, line :: rest =>
    if matchesIndexLine line then
      let p := renumberLines (c + 1) rest
      (p.1, natLine c :: p.2)
    else
      let p := renumberLines c rest
      (p.1, line :: p.2)

/-- The `for video_title, sub_path in subtitle_files` loop of
`combine_subtitles`, with the running `cue_index` made explicit. -/
def combineFrom (fmt : List Char) : Nat → List (List Char × List (List Char)) → List (List Char)
  | _, [] => []
  | c, (title, body) :: rest =>
    if fmt = ("srt").data ∨ fmt = ("vtt").data then
      let p := renumberLines c body
      separatorLines fmt title ++ p.2 ++ combineFrom fmt p.1 rest
    else
      separatorLines fmt title ++ body ++ combineFrom fmt c rest

/-- `combine_subtitles`: combine per-item `(title, body)` documents,
starting the global cue counter at 1. -/
def combine_subtitles (fmt : List Char) (items : List (List Char × List (List Char))) :
    List (List Char) :=
  combineFrom fmt 1 items

/-- Number of index lines (lines matching `^\d+$` after strip) in a body. -/
def idxCount (body : List (List Char)) : Nat :=
  body.countP (fun l => matchesIndexLine l)

/-- Total number of index lines over a list of items. -/
def totalIdx (items : List (List Char × List (List Char))) : Nat :=
  (items.map (fun p => idxCount p.2)).sum

/-! ## Regex substitution machinery

`pySub f l` models `re.sub(pat, rep, l)` for the patterns used in app.py:
`f` examines a suffix and, when the pattern matches at its head, returns
the replacement text together with the matched length; scanning resumes
after the match, exactly as `re.sub` does (replaced text is not
rescanned).  The fuel argument equals the scanned length, so the
recursion is structural; every matcher below consumes at least one
character, hence the fuel never runs out on `pySub f l`. -/

def pySubGo (f : List Char → Option (List Char × Nat)) : Nat → List Char → List Char
  | _, [] => []
  | 0, l => l
  | fuel + 1, c :: rest =>
    match f (c :: rest) with
    | some (rep, n) => rep ++ pySubGo f fuel ((c :: rest).drop n)
    | none => c :: pySubGo f fuel rest

def pySub (f : List Char → Option (List Char × Nat)) (l : List Char) : List Char :=
  pySubGo f l.length l

/-- Does the pattern recognised by `f` match anywhere in `l`? -/
def hasMatch (f : List Char → Option (List Char × Nat)) : List Char → Bool
  | [] => false
  | c :: rest => (f (c :: rest)).isSome || hasMatch f rest

/-! ## `convert_srt_to_txt` (src/app.py lines 196-209) -/

/-- Characters admitted by `[\d:.]` in the inline timing-tag pattern. -/
def isTimeTagChar (c : Char) : Bool :=
  c.isDigit || c = ':' || c = '.'

/-- `re` match of `<[\d:.]+>` at the head of `l` (deletion, so the
replacement is empty). -/
def timeTagMatch (l : List Char) : Option (List Char × Nat) :=
  match l with
  | a :: rest =>
    if a = '<' then
      let k := (rest.takeWhile isTimeTagChar).length
      if k = 0 then none
      else
        match rest.drop k with
        | g :: _ => if g = '>' then some ([], k + 2) else none
        | [] => none
    else none
  | [] => none

/-- Shared tail of `</?c[^>]*>` / `</?v[^>]*>`: after the tag letter,
`[^>]*` greedily runs to the first `'>'`.  `base` counts the characters
already matched before `rest`. -/
def tagClose (base : Nat) (rest : List Char) : Option (List Char × Nat) :=
  let k := (rest.takeWhile (fun c => !(c = '>'))).length
  match rest.drop k with
  | g :: _ => if g = '>' then some ([], base + k + 1) else none
  | [] => none

/-- `re` match of `</?X[^>]*>` (with `X` the given tag letter) at the
head of `l`. -/
def tagMatch (tagc : Char) (l : List Char) : Option (List Char × Nat) :=
  match l with
  | a :: b :: rest =>
    if a = '<' then
      if b = '/' then
        match rest with
        | c :: rest2 => if c = tagc then tagClose 3 rest2 else none
        | [] => none
      else if b = tagc then tagClose 2 rest
      else none
    else none
  | _ => none

/-- The three inline-tag substitutions of `convert_srt_to_txt`, in source
order: `<[\d:.]+>`, then `</?c[^>]*>`, then `</?v[^>]*>`. -/
def stripInlineTags (l : List Char) : List Char :=
  pySub (tagMatch 'v') (pySub (tagMatch 'c') (pySub timeTagMatch l))

/-- `re.match` of `\d{2}:\d{2}:\d{2}[,\.]\d{3}` at the head of `l`,
returning the remainder on success. -/
def tsHalf (l : List Char) : Option (List Char) :=
  match l with
  | a1 :: a2 :: b1 :: a3 :: a4 :: b2 :: a5 :: a6 :: s :: m1 :: m2 :: m3 :: rest =>
    if a1.isDigit && a2.isDigit && b1 = ':' && a3.isDigit && a4.isDigit && b2 = ':' &&
       a5.isDigit && a6.isDigit && (s = ',' || s = '.') && m1.isDigit && m2.isDigit && m3.isDigit
    then some rest else none
  | _ => none

/-- `re.match(r'^\d{2}:\d{2}:\d{2}[,\.]\d{3} --> \d{2}:\d{2}:\d{2}[,\.]\d{3}$', s)`
for a stripped line `s`. -/
def tsShape (l : List Char) : Bool :=
  match tsHalf l with
  | some rest =>
    match rest with
    | s1 :: s2 :: s3 :: s4 :: s5 :: rest2 =>
      if s1 = ' ' && s2 = '-' && s3 = '-' && s4 = '>' && s5 = ' ' then
        match tsHalf rest2 with
        | some [] => true
        | _ => false
      else false
    | _ => false
  | none => false

/-- The per-line body of `convert_srt_to_txt`: skip index lines and
timestamp lines, strip inline tags, and emit the stripped line when it is
non-empty. -/
def srtToTxtLine (line : List Char) : Option (List Char) :=
  if matchesIndexLine line || tsShape (pyStrip line) then none
  else
    let line2 := stripInlineTags line
    if (pyStrip line2).isEmpty then none else some (pyStrip line2)

/-- The emitted lines of `convert_srt_to_txt`, before the final `'\n'`. -/
def srtToTxtCore (lines : List (List Char)) : List (List Char) :=
  lines.filterMap srtToTxtLine

/-- `convert_srt_to_txt`: the loop over input lines followed by the final
`txt_file.write('\n')`, which contributes one trailing empty line. -/
def convert_srt_to_txt (lines : List (List Char)) : List (List Char) :=
  srtToTxtCore lines ++ [[]]

/-! ## `convert_vtt_to_srt` (src/app.py lines 185-194) -/

/-- The header lines skipped by `convert_vtt_to_srt`:
`line.strip() == 'WEBVTT' or line.startswith('Kind:') or line.startswith('Language:')`. -/
def isVttHeaderLine (l : List Char) : Bool :=
  decide (pyStrip l = ("WEBVTT").data) ||
    startsWith (("Kind:").data) l || startsWith (("Language:").data) l

/-- `re` match of `(\d{2}:\d{2}:\d{2})\.(\d{3})` at the head of `l`, with
replacement `\1,\2`. -/
def tsDotMatch (l : List Char) : Option (List Char × Nat) :=
  match l with
  | a1 :: a2 :: b1 :: a3 :: a4 :: b2 :: a5 :: a6 :: d :: m1 :: m2 :: m3 :: _ =>
    if a1.isDigit && a2.isDigit && b1 = ':' && a3.isDigit && a4.isDigit && b2 = ':' &&
       a5.isDigit && a6.isDigit && d = '.' && m1.isDigit && m2.isDigit && m3.isDigit
    then some ([a1, a2, b1, a3, a4, b2, a5, a6, ',', m1, m2, m3], 12) else none
  | _ => none

/-- `re.sub(r'(\d{2}:\d{2}:\d{2})\.(\d{3})', r'\1,\2', line)`, applied to
every non-header line. -/
def subTsDot (l : List Char) : List Char :=
  pySub tsDotMatch l

/-- `convert_vtt_to_srt`: drop the WEBVTT banner and `Kind:`/`Language:`
header lines and rewrite the timestamp separator on every kept line. -/
def convert_vtt_to_srt (lines : List (List Char)) : List (List Char) :=
  lines.foldr (fun l acc => if isVttHeaderLine l then acc else subTsDot l :: acc) []

/-! ## `clean_subtitle_text` (src/app.py lines 211-215) -/

/-- The advertisement marker token. -/
def adMarker : List Char := ("[Advertisement]").data

/-- Index of the first newline in `l`, if any. -/
def findNlIdx : List Char → Option Nat
  | [] => none
  | c :: rest => if c = '\n' then some 0 else (findNlIdx rest).map (· + 1)

/-- `re` match of `\[Advertisement\].*?\n` (DOTALL) at the head of `l`:
the marker followed, non-greedily, by everything through the first
newline.  No newline after the marker means no match. -/
def adMatch (l : List Char) : Option (List Char × Nat) :=
  if startsWith adMarker l then
    match findNlIdx (l.drop adMarker.length) with
    | some j => some ([], adMarker.length + j + 1)
    | none => none
  else none

/-- First pass of `clean_subtitle_text`:
`re.sub(r'\[Advertisement\].*?\n', '', text, flags=re.DOTALL)`. -/
def adSub (l : List Char) : List Char :=
  pySub adMatch l

/-- Second pass of `clean_subtitle_text`:
`re.sub(r'\n{3,}', '\n\n', text)`.  Each maximal run of three or more
newlines is replaced by exactly two; equivalently, every newline that
already has two newlines directly before it in its run is dropped.  The
state `k` counts the newlines immediately preceding the cursor. -/
def collapseNlGo : Nat → List Char → List Char
  | _, [] => []
  | k, c :: rest =>
    if c = '\n' then
      if 2 ≤ k then collapseNlGo (k + 1) rest
      else c :: collapseNlGo (k + 1) rest
    else c :: collapseNlGo 0 rest

def collapseNl (l : List Char) : List Char :=
  collapseNlGo 0 l

/-- `clean_subtitle_text`: advertisement removal, then newline collapse. -/
def clean_subtitle_text (l : List Char) : List Char :=
  collapseNl (adSub l)

/-! ## `find_subtitle_file` (src/app.py lines 165-183)

The scratch directory listing is modelled as the list of file names in
directory-enumeration order (the order `glob.glob` reports).  A pattern
`{base}.*.{suffix}` is a prefix, a `*` wildcard and a suffix. -/

/-- Python `str.endswith` via an explicit suffix check. -/
def endsWith (s l : List Char) : Bool :=
  decide (s.length ≤ l.length) && decide (l.drop (l.length - s.length) = s)

/-- Glob match of `p ++ "*" ++ s` against `f`: `*` matches any run of
characters not containing `'/'`. -/
def globMatch1 (p s f : List Char) : Bool :=
  decide (p.length + s.length ≤ f.length) && startsWith p f && endsWith s f &&
    (((f.drop p.length).take (f.length - p.length - s.length)).all (fun c => !(c = '/')))

/-- The fixed pattern priority list of `find_subtitle_file`, as
(prefix, suffix) pairs of `{base_path}.*.{ext}` globs. -/
def subtitlePatterns (base fmt : List Char) : List (List Char × List Char) :=
  [ (base ++ (".").data, (".").data ++ fmt),
    (base ++ (".").data, (".auto.").data ++ fmt),
    (base ++ (".").data, (".srt").data),
    (base ++ (".").data, (".auto.srt").data),
    (base ++ (".").data, (".vtt").data),
    (base ++ (".").data, (".auto.vtt").data) ]

/-- `matches[0].split('.')[-2].split('.auto')[0]`: the second-to-last
dot-component of the file name (the `.auto` split is the identity on a
dot-free component, kept for faithfulness). -/
def selectedLanguage (f : List Char) : List Char :=
  let comps := splitChar '.' f
  takeBefore ((".auto").data) (comps.getD (comps.length - 2) [])

/-- `find_subtitle_file`: try each pattern in priority order; within one
pattern, return the first file in enumeration order, plus the language
token parsed from its name. -/
def find_subtitle_file (files : List (List Char)) (base fmt : List Char) :
    Option (List Char × List Char) :=
  (subtitlePatterns base fmt).findSome? (fun ps =>
    match files.filter (fun f => globMatch1 ps.1 ps.2 f) with
    | [] => none
    | m :: _ => some (m, selectedLanguage m))

/-! ## Messages and the per-item loop of `download_subtitles`
(src/app.py lines 292-352)

Remote calls are abstracted by a per-item `FetchOutcome` describing what
the body of the loop observed for that item; the loop itself — which
messages it emits, whether it continues, which items it collects — is
translated from the source. -/

/-- A streamlit user message: `st.info` / `st.warning` / `st.error`. -/
inductive Msg where
  | info (text : List Char)
  | warning (text : List Char)
  | error (text : List Char)
deriving DecidableEq

def Msg.isWarningMsg : Msg → Bool
  | .warning _ => true
  | _ => false

def Msg.text : Msg → List Char
  | .info t => t
  | .warning t => t
  | .error t => t

/-- What happened inside the loop body for one item. -/
inductive FetchOutcome where
  | ok (lang : Option (List Char)) (file : List Char)
  | noSubs
  | noVideoId
  | exc (msg : List Char)
deriving DecidableEq

/-- One playlist entry: title, video id, and the abstracted outcome of
its fetch-and-convert body. -/
structure Entry where
  title : List Char
  vid : List Char
  outcome : FetchOutcome
deriving DecidableEq

def signInText : List Char := ("Sign in to confirm").data

/-- Messages and collected file of one loop iteration, from the source:
`st.warning` for a missing video id, missing subtitles, or a generic
exception; `st.error` for a sign-in-demand exception; `st.info` plus a
collected `(title, file)` pair on success.  Every branch falls through to
the next item. -/
def processEntry (e : Entry) : List Msg × Option (List Char × List Char) :=
  match e.outcome with
  | .noVideoId =>
    ([Msg.warning (("Could not extract video ID for '").data ++ e.title ++ ("'").data)], none)
  | .noSubs =>
    ([Msg.warning (("No subtitles found for '").data ++ e.title ++ ("'").data)], none)
  | .exc m =>
    if containsSeq signInText m then
      ([Msg.error ((("YouTube requires sign-in for '").data ++ e.title ++ ("' (").data
        ++ e.vid ++ ("). Upload a cookies file or disable VPN.").data))], none)
    else
      ([Msg.warning ((("Error downloading subtitles for '").data ++ e.title
        ++ ("': ").data ++ m))], none)
  | .ok lang file =>
    (match lang with
     | some lg => [Msg.info ((("Downloaded subtitles for '").data ++ e.title
         ++ ("' in ").data ++ lg))]
     | none => [],
     some (e.title, file))

/-- The `for i, entry in enumerate(entries)` loop of `download_subtitles`:
emit each item's messages and accumulate the successful files. -/
def downloadLoop : List Entry → List Msg × List (List Char × List Char)
  | [] => ([], [])
  | e :: rest =>
    let p := processEntry e
    let q := downloadLoop rest
    (p.1 ++ q.1, p.2.toList ++ q.2)

/-- The top-level failure message of `main` (src/app.py lines 457-459). -/
def mainNoSubsError : Msg :=
  Msg.error (("No subtitles were downloaded. Upload a cookies file, disable VPN, or check if subtitles are available.").data)

/-- `main` after `download_subtitles` returns: a batch with zero
successful items is reported as one top-level `st.error` and the run
stops; otherwise the collected files flow on. -/
def mainCollect (entries : List Entry) : List Msg × Option (List (List Char × List Char)) :=
  let p := downloadLoop entries
  if p.2.isEmpty then (p.1 ++ [mainNoSubsError], none) else (p.1, some p.2)

/-- A batch in which every item raises: each `(title, vid, msg)` triple
becomes an `Entry` whose outcome is an exception. -/
def allExcEntries (l : List (List Char × List Char × List Char)) : List Entry :=
  l.map (fun t => ⟨t.1, t.2.1, FetchOutcome.exc t.2.2⟩)

/-! ## Retry configuration (src/app.py lines 100, 260; tenacity)

`@retry(stop=stop_after_attempt(n), wait=wait_exponential(multiplier, min, max))`
retries the decorated call up to `n` attempts; after failed attempt `k`
(1-based) tenacity sleeps `max(max(0, min), multiplier * 2^k ⊓ max)`
seconds. -/

structure RetryPolicy where
  maxAttempts : Nat
  multiplier : Nat
  waitMin : Nat
  waitMax : Nat
deriving DecidableEq

/-- tenacity `wait_exponential(multiplier, min, max)` after attempt
number `k`. -/
def wait_exponential (multiplier lo hi k : Nat) : Nat :=
  max (max 0 lo) (min (multiplier * 2 ^ k) hi)

/-- The decorator of `get_info` (src/app.py line 100):
`stop_after_attempt(3), wait_exponential(multiplier=1, min=1, max=5)`. -/
def get_info_retry : RetryPolicy := ⟨3, 1, 1, 5⟩

/-- The decorator of `download_subtitles` (src/app.py line 260):
`stop_after_attempt(3), wait_exponential(multiplier=1, min=1, max=5)`. -/
def download_subtitles_retry : RetryPolicy := ⟨3, 1, 1, 5⟩

/-- The decorator of `get_playlist_entries`
(src/playlist_selector.py line 11): `stop_after_attempt(3),
wait_exponential(multiplier=1, min=2, max=10)`. -/
def get_playlist_entries_retry : RetryPolicy := ⟨3, 1, 2, 10⟩

/-- Run a retried call: `f k` is attempt number `k`.  Returns the final
result, the number of attempts made, and the backoff waits slept between
attempts.  Structural on the remaining-attempt budget. -/
def runRetryFrom (p : RetryPolicy) (f : Nat → Except (List Char) α) (attempt : Nat) :
    Nat → Except (List Char) α × Nat × List Nat
  | 0 => (Except.error (("retry ceiling exhausted").data), 0, [])
  | 1 =>
    (f attempt, 1, [])
  | remaining + 2 =>
    match f attempt with
    | Except.ok a => (Except.ok a, 1, [])
    | Except.error _ =>
      let w := wait_exponential p.multiplier p.waitMin p.waitMax attempt
      let q := runRetryFrom p f (attempt + 1) (remaining + 1)
      (q.1, q.2.1 + 1, w :: q.2.2)

def runRetry (p : RetryPolicy) (f : Nat → Except (List Char) α) :
    Except (List Char) α × Nat × List Nat :=
  runRetryFrom p f 1 p.maxAttempts

/-! ## Cookie-file lifecycle in `main` (src/app.py lines 379-384, 424-506)

The filesystem is a `Finset Nat` of file ids.  The download-button block
is `try: ... except ValueError: ... except Exception: ... finally:
if cookies_file and os.path.exists(cookies_file): os.unlink(cookies_file)`;
the `finally` clause runs on every exit path of the batch, including the
early `return` on an empty result and both `except` branches. -/

def os_unlink (fs : Finset Nat) (f : Nat) : Finset Nat := fs.erase f

def os_path_exists (fs : Finset Nat) (f : Nat) : Bool := decide (f ∈ fs)

/-- The `finally` clause of `main`. -/
def mainCleanupCookies (cookies : Option Nat) (fs : Finset Nat) : Finset Nat :=
  match cookies with
  | some c => if os_path_exists fs c then os_unlink fs c else fs
  | none => fs

/-- The distinct exit paths of the batch `try` block. -/
inductive BatchExit where
  | completed
  | emptyResult
  | valueErr (m : List Char)
  | exc (m : List Char)
deriving DecidableEq

/-- The message each exit path shows, from the source (lines 457-459 and
497-503). -/
def mainExitMsgs : BatchExit → List Msg
  | .completed => []
  | .emptyResult => [mainNoSubsError]
  | .valueErr m => [Msg.error m]
  | .exc m =>
    if containsSeq signInText m then
      [Msg.error (("YouTube requires sign-in to process the request. Upload a cookies file or disable VPN.").data)]
    else
      [Msg.error (("Error: ").data ++ m)]

/-- The whole guarded block: body messages according to the exit path,
then the `finally` cleanup applied to the filesystem in every case. -/
def mainBatchRun (cookies : Option Nat) (fs : Finset Nat) (exit : BatchExit) :
    List Msg × Finset Nat :=
  (mainExitMsgs exit, mainCleanupCookies cookies fs)

/-! ## `get_available_subtitle_languages` (src/app.py lines 124-163)

The two `ydl.extract_info` calls are abstracted by `ExtractOutcome`
values; everything else is translated from the source. -/

/-- The fields of a yt-dlp info dict the function reads: per-entry ids,
and the key sets of `subtitles` and `automatic_captions` (an absent or
empty dict is modelled by `[]`). -/
structure YtInfo where
  entryIds : List (Option (List Char))
  subtitles : List (List Char)
  automatic_captions : List (List Char)
deriving DecidableEq

inductive ExtractOutcome where
  | err (msg : List Char)
  | ok (info : YtInfo)
deriving DecidableEq

/-- `get_first_video_id` (src/app.py lines 94-98). -/
def get_first_video_id (info : YtInfo) : Option (List Char) :=
  match info.entryIds with
  | [] => none
  | i :: _ => i

/-- The sentinel returned whenever no concrete language list is
available. -/
def allSentinel : List (List Char) := [("all").data]

/-- The `except` branch of `get_available_subtitle_languages`. -/
def galErrMsgs (m : List Char) : List Msg :=
  if containsSeq signInText m then
    [Msg.error (("YouTube requires sign-in to access subtitle languages. Upload a cookies file or disable VPN.").data)]
  else
    [Msg.warning ((("Error fetching subtitle languages: ").data ++ m
      ++ (". Defaulting to all languages.").data))]

/-- The tail of the function: timeout check, then
`list(set(languages)) or ['all']` over the keys of `subtitles` and
`automatic_captions`. -/
def galFinish (timedOut : Bool) (info : YtInfo) : List Msg × List (List Char) :=
  if timedOut then
    ([Msg.warning (("Timeout fetching subtitle languages. Defaulting to all languages.").data)],
     allSentinel)
  else
    let languages := info.subtitles ++ info.automatic_captions
    ([], if languages.dedup.isEmpty then allSentinel else languages.dedup)

/-- `get_available_subtitle_languages`: `first` is the outcome of the
initial `extract_info`, `second` the outcome of the per-video call made
for a playlist's first entry. -/
def get_available_subtitle_languages (isPlaylist timedOut : Bool)
    (first second : ExtractOutcome) : List Msg × List (List Char) :=
  match first with
  | .err m => (galErrMsgs m, allSentinel)
  | .ok info =>
    if isPlaylist then
      match get_first_video_id info with
      | some _ =>
        match second with
        | .err m => (galErrMsgs m, allSentinel)
        | .ok info2 => galFinish timedOut info2
      | none => ([], allSentinel)
    else galFinish timedOut info
/-! ## Basic lemmas: prefixes, occurrences, stripping, decimal rendering -/

theorem startsWith_append (p v : List Char) : startsWith p (p ++ v) = true := by
  induction p with
  | nil => rfl
  | cons a ps ih => simp [startsWith, ih]

theorem containsSeq_of_startsWith {p l : List Char} (h : startsWith p l = true) :
    containsSeq p l = true := by
  cases l with
  | nil => simpa [containsSeq] using h
  | cons c cs => simp [containsSeq, h]

theorem containsSeq_cons {p l : List Char} (c : Char) (h : containsSeq p l = true) :
    containsSeq p (c :: l) = true := by
  cases p with
  | nil => simp [containsSeq, startsWith]
  | cons b bs =>
    simp only [containsSeq, Bool.or_eq_true]
    exact Or.inr (by cases l with
      | nil => simpa [containsSeq] using h
      | cons d ds => exact h)

theorem containsSeq_append_left {p v : List Char} (u : List Char)
    (h : containsSeq p v = true) : containsSeq p (u ++ v) = true := by
  induction u with
  | nil => simpa using h
  | cons a us ih => exact containsSeq_cons a ih

theorem containsSeq_self_append (p v : List Char) : containsSeq p (p ++ v) = true :=
  containsSeq_of_startsWith (startsWith_append p v)

theorem containsSeq_middle (u p v : List Char) : containsSeq p (u ++ p ++ v) = true := by
  rw [List.append_assoc]
  exact containsSeq_append_left u (containsSeq_self_append p v)

theorem mem_dropWhile_of_mem {a : Char} {l : List Char} {p : Char → Bool}
    (ha : a ∈ l) (hp : p a = false) : a ∈ l.dropWhile p := by
  induction l with
  | nil => cases ha
  | cons b t ih =>
    rcases List.mem_cons.mp ha with rfl | hmem
    · rw [List.dropWhile_cons, hp]
      exact List.mem_cons_self _ _
    · by_cases hb : p b = true
      · rw [List.dropWhile_cons, if_pos hb]
        exact ih hmem
      · rw [List.dropWhile_cons, if_neg hb]
        exact List.mem_cons_of_mem _ hmem

theorem mem_pyStrip_of_mem {a : Char} {l : List Char}
    (ha : a ∈ l) (hp : pySpace a = false) : a ∈ pyStrip l := by
  unfold pyStrip
  rw [List.mem_reverse]
  exact mem_dropWhile_of_mem (by rw [List.mem_reverse]; exact mem_dropWhile_of_mem ha hp) hp

theorem pySpace_eq_false_of_isDigit {c : Char} (h : c.isDigit = true) :
    pySpace c = false := by
  unfold pySpace
  simp only [Bool.or_eq_false_iff, decide_eq_false_iff_not]
  refine ⟨⟨⟨⟨⟨?_, ?_⟩, ?_⟩, ?_⟩, ?_⟩, ?_⟩ <;> rintro rfl <;> simp_all

theorem dropWhile_eq_self_of_head {l : List Char} {p : Char → Bool}
    (h : ∀ a ∈ l.head?, p a = false) : l.dropWhile p = l := by
  cases l with
  | nil => rfl
  | cons a t =>
    rw [List.dropWhile_cons, h a rfl]
    simp

theorem pyStrip_of_all_digits {l : List Char} (h : l.all Char.isDigit = true) :
    pyStrip l = l := by
  have hall : ∀ a ∈ l, pySpace a = false := fun a ha =>
    pySpace_eq_false_of_isDigit (List.all_eq_true.mp h a ha)
  unfold pyStrip
  rw [dropWhile_eq_self_of_head (fun a ha => hall a (List.mem_of_mem_head? ha)),
      dropWhile_eq_self_of_head (fun a ha =>
        hall a (List.mem_reverse.mp (List.mem_of_mem_head? ha))),
      List.reverse_reverse]

theorem digitChar_isDigit {d : Nat} (h : d < 10) : (Nat.digitChar d).isDigit = true := by
  interval_cases d <;> decide

theorem natLineGo_all_digit (fuel : Nat) :
    ∀ m, (natLineGo fuel m).all Char.isDigit = true := by
  induction fuel with
  | zero => intro m; cases m <;> simp [natLineGo]
  | succ fuel ih =>
    intro m
    cases m with
    | zero => simp [natLineGo]
    | succ k =>
      rw [natLineGo, List.all_append, ih]
      simp [digitChar_isDigit (Nat.mod_lt (k + 1) (by norm_num))]

theorem natLine_all_digit (n : Nat) : (natLine n).all Char.isDigit = true := by
  unfold natLine
  split
  · decide
  · exact natLineGo_all_digit n n

theorem natLine_ne_nil (n : Nat) : natLine n ≠ [] := by
  unfold natLine
  split
  · simp
  · rcases n with - | k
    · simp_all
    · rw [natLineGo]
      simp

theorem matchesIndexLine_natLine (n : Nat) : matchesIndexLine (natLine n) = true := by
  unfold matchesIndexLine
  rw [pyStrip_of_all_digits (natLine_all_digit n)]
  simp [natLine_all_digit n, List.isEmpty_iff, natLine_ne_nil n]

theorem matchesIndexLine_eq_false_of_mem {l : List Char} (h : '=' ∈ l) :
    matchesIndexLine l = false := by
  unfold matchesIndexLine
  have hm : '=' ∈ pyStrip l := mem_pyStrip_of_mem h (by decide)
  simp only [Bool.and_eq_false_iff]
  right
  rw [Bool.eq_false_iff]
  intro hall
  have h2 := List.all_eq_true.mp hall _ hm
  simp at h2

theorem matchesIndexLine_nil : matchesIndexLine [] = false := by decide
/-! ## C1: global cue renumbering in `combine_subtitles` -/

theorem renumberLines_cons_pos {line : List Char} (h : matchesIndexLine line = true)
    (rest : List (List Char)) (c : Nat) :
    renumberLines c (line :: rest)
      = ((renumberLines (c + 1) rest).1, natLine c :: (renumberLines (c + 1) rest).2) := by
  simp [renumberLines, h]

theorem renumberLines_cons_neg {line : List Char} (h : matchesIndexLine line = false)
    (rest : List (List Char)) (c : Nat) :
    renumberLines c (line :: rest)
      = ((renumberLines c rest).1, line :: (renumberLines c rest).2) := by
  simp [renumberLines, h]

theorem idxCount_cons (line : List Char) (rest : List (List Char)) :
    idxCount (line :: rest) = idxCount rest + (if matchesIndexLine line then 1 else 0) := by
  simp [idxCount, List.countP_cons]

theorem renumberLines_fst (b : List (List Char)) :
    ∀ c, (renumberLines c b).1 = c + idxCount b := by
  induction b with
  | nil => intro c; simp [renumberLines, idxCount]
  | cons line rest ih =>
    intro c
    by_cases h : matchesIndexLine line = true
    · rw [renumberLines_cons_pos h, idxCount_cons, if_pos h]
      rw [ih]
      omega
    · have h' : matchesIndexLine line = false := by simpa using h
      rw [renumberLines_cons_neg h', idxCount_cons, h']
      rw [ih]
      simp

theorem renumberLines_filter (b : List (List Char)) :
    ∀ c, (renumberLines c b).2.filter (fun l => matchesIndexLine l)
      = (List.range' c (idxCount b)).map natLine := by
  induction b with
  | nil => intro c; simp [renumberLines, idxCount]
  | cons line rest ih =>
    intro c
    by_cases h : matchesIndexLine line = true
    · rw [renumberLines_cons_pos h, idxCount_cons, if_pos h]
      show List.filter _ (natLine c :: _) = _
      rw [List.filter_cons, if_pos (by simpa using matchesIndexLine_natLine c),
        List.range'_succ, List.map_cons, ih]
    · have h' : matchesIndexLine line = false := by simpa using h
      rw [renumberLines_cons_neg h', idxCount_cons, h']
      show List.filter _ (line :: _) = _
      rw [List.filter_cons, if_neg (by simp [h']), ih]
      simp

theorem filter_separatorLines (fmt title : List Char) (h : fmt ≠ ("txt").data) :
    (separatorLines fmt title).filter (fun l => matchesIndexLine l) = [] := by
  rw [separatorLines, if_pos h, List.filter_eq_nil_iff]
  intro a ha
  simp only [List.mem_cons, List.not_mem_nil, or_false] at ha
  rcases ha with rfl | rfl | rfl | rfl
  · simp [matchesIndexLine_nil]
  · simp [matchesIndexLine_nil]
  · have h2 : matchesIndexLine ('=' :: '=' :: '=' :: ' ' :: (title ++ [' ', '=', '=', '='])) = false :=
      matchesIndexLine_eq_false_of_mem (by simp)
    simp [h2]
  · simp [matchesIndexLine_nil]

theorem markup_ne_txt {fmt : List Char} (h : fmt = ("srt").data ∨ fmt = ("vtt").data) :
    fmt ≠ ("txt").data := by
  rcases h with rfl | rfl <;> decide

theorem combineFrom_cons_markup {fmt : List Char}
    (h : fmt = ("srt").data ∨ fmt = ("vtt").data) (title : List Char)
    (body : List (List Char)) (rest : List (List Char × List (List Char))) (c : Nat) :
    combineFrom fmt c ((title, body) :: rest)
      = separatorLines fmt title ++ (renumberLines c body).2
          ++ combineFrom fmt (renumberLines c body).1 rest := by
  simp [combineFrom, h]

theorem totalIdx_cons (title : List Char) (body : List (List Char))
    (rest : List (List Char × List (List Char))) :
    totalIdx ((title, body) :: rest) = idxCount body + totalIdx rest := by
  simp [totalIdx]

theorem combineFrom_filter (fmt : List Char) (h : fmt = ("srt").data ∨ fmt = ("vtt").data)
    (items : List (List Char × List (List Char))) :
    ∀ c, (combineFrom fmt c items).filter (fun l => matchesIndexLine l)
      = (List.range' c (totalIdx items)).map natLine := by
  induction items with
  | nil => intro c; simp [combineFrom, totalIdx]
  | cons item rest ih =>
    intro c
    obtain ⟨title, body⟩ := item
    rw [combineFrom_cons_markup h, List.filter_append, List.filter_append,
      filter_separatorLines fmt title (markup_ne_txt h), renumberLines_filter,
      ih, renumberLines_fst, totalIdx_cons, List.nil_append, ← List.map_append,
      List.range'_append_1, Nat.add_comm (totalIdx rest) (idxCount body)]

theorem combineFrom_append (fmt : List Char) (h : fmt = ("srt").data ∨ fmt = ("vtt").data)
    (a b : List (List Char × List (List Char))) :
    ∀ c, combineFrom fmt c (a ++ b)
      = combineFrom fmt c a ++ combineFrom fmt (c + totalIdx a) b := by
  induction a with
  | nil => intro c; simp [combineFrom, totalIdx]
  | cons item rest ih =>
    intro c
    obtain ⟨title, body⟩ := item
    rw [List.cons_append, combineFrom_cons_markup h, combineFrom_cons_markup h, ih,
      renumberLines_fst, totalIdx_cons]
    simp [List.append_assoc, Nat.add_assoc]
/-- C1: combining markup-format (srt/vtt) per-item subtitle documents
replaces the cue index lines by one globally contiguous ascending
sequence starting at 1 and continuing across item boundaries — the
counter entering an item equals 1 plus the number of index lines of all
earlier items, it is never reset and never copied from the input — and
each item's renumbered body is immediately preceded by that item's title
separator chunk. -/
theorem combine_renumber_global (fmt : List Char)
    (pre post : List (List Char × List (List Char))) (title : List Char)
    (body : List (List Char)) (h : fmt = ("srt").data ∨ fmt = ("vtt").data) :
    combine_subtitles fmt (pre ++ (title, body) :: post)
      = combine_subtitles fmt pre ++ separatorLines fmt title
          ++ (renumberLines (1 + totalIdx pre) body).2
          ++ combineFrom fmt (1 + totalIdx pre + idxCount body) post
    ∧ (combine_subtitles fmt (pre ++ (title, body) :: post)).filter
        (fun l => matchesIndexLine l)
      = (List.range' 1 (totalIdx (pre ++ (title, body) :: post))).map natLine := by
  constructor
  · rw [combine_subtitles, combine_subtitles, combineFrom_append fmt h,
      combineFrom_cons_markup h, renumberLines_fst]
    simp [List.append_assoc]
  · rw [combine_subtitles, combineFrom_filter fmt h]

/-- A single-cue srt document body: index line "1", a timestamp line and
one text line. -/
def demoCueBody : List (List Char) :=
  [("1").data, ("00:00:01,000 --> 00:00:02,000").data, ("hello").data]

/-- C1 witness: combining three single-cue documents, each indexed "1",
yields cue indices 1, 2, 3 in item order. -/
theorem combine_renumber_global_witness :
    (combine_subtitles (("srt").data)
        [(("A").data, demoCueBody), (("B").data, demoCueBody), (("C").data, demoCueBody)]).filter
      (fun l => matchesIndexLine l)
      = [natLine 1, natLine 2, natLine 3] := by
  have h := (combine_renumber_global (("srt").data) [(("A").data, demoCueBody)]
      [(("C").data, demoCueBody)] (("B").data) demoCueBody (Or.inl rfl)).2
  rw [List.singleton_append] at h
  rw [h]
  decide
/-! ## C2: idempotence of `convert_srt_to_txt` -/

theorem dropWhile_idem (p : Char → Bool) (x : List Char) :
    (x.dropWhile p).dropWhile p = x.dropWhile p := by
  apply dropWhile_eq_self_of_head
  intro a ha
  have h := List.head?_dropWhile_not p x
  rw [Option.mem_def] at ha
  rw [ha] at h
  exact h

theorem rstrip_head {x : List Char} (hne : (x.reverse.dropWhile pySpace).reverse ≠ []) :
    ((x.reverse.dropWhile pySpace).reverse).head? = x.head? := by
  obtain ⟨t, ht⟩ := List.dropWhile_suffix (l := x.reverse) pySpace
  have hx : (x.reverse.dropWhile pySpace).reverse ++ t.reverse = x := by
    have h2 := congrArg List.reverse ht
    simpa using h2
  conv_rhs => rw [← hx]
  rw [List.head?_append]
  cases hA : (x.reverse.dropWhile pySpace).reverse.head? with
  | none => exact absurd (List.head?_eq_none_iff.mp hA) hne
  | some a => simp

theorem pyStrip_idem (l : List Char) : pyStrip (pyStrip l) = pyStrip l := by
  have hd : List.dropWhile pySpace (pyStrip l) = pyStrip l := by
    by_cases h0 : pyStrip l = []
    · rw [h0]; rfl
    · apply dropWhile_eq_self_of_head
      intro a ha
      have hh : (pyStrip l).head? = (l.dropWhile pySpace).head? :=
        rstrip_head (x := l.dropWhile pySpace) h0
      rw [Option.mem_def, hh] at ha
      have h := List.head?_dropWhile_not pySpace l
      rw [ha] at h
      exact h
  show ((List.dropWhile pySpace (pyStrip l)).reverse.dropWhile pySpace).reverse = pyStrip l
  rw [hd]
  have h2 : (pyStrip l).reverse = (l.dropWhile pySpace).reverse.dropWhile pySpace := by
    show (((l.dropWhile pySpace).reverse.dropWhile pySpace).reverse).reverse = _
    rw [List.reverse_reverse]
  rw [h2, dropWhile_idem]
  rfl

theorem srtToTxtCore_mem {o : List Char} {lines : List (List Char)}
    (h : o ∈ srtToTxtCore lines) : pyStrip o = o ∧ o ≠ [] := by
  rw [srtToTxtCore, List.mem_filterMap] at h
  obtain ⟨a, -, ha⟩ := h
  rw [srtToTxtLine] at ha
  split at ha
  · exact absurd ha (by simp)
  · rw [show (let line2 := stripInlineTags a;
        if (pyStrip line2).isEmpty = true then none else some (pyStrip line2))
      = if (pyStrip (stripInlineTags a)).isEmpty = true then none
        else some (pyStrip (stripInlineTags a)) from rfl] at ha
    split at ha
    · exact absurd ha (by simp)
    · rename_i hne
      rw [Option.some_inj] at ha
      subst ha
      refine ⟨pyStrip_idem _, ?_⟩
      intro hnil
      rw [hnil] at hne
      simp at hne

theorem filterMap_id_of_mem {f : List Char → Option (List Char)} {xs : List (List Char)}
    (h : ∀ o ∈ xs, f o = some o) : xs.filterMap f = xs := by
  induction xs with
  | nil => rfl
  | cons a t ih =>
    rw [List.filterMap_cons, h a (List.mem_cons_self a t),
      ih (fun o ho => h o (List.mem_cons_of_mem a ho))]

/-- C2: the SRT-to-TXT conversion applied to its own output is a no-op
provided the first output contains no residual numeric line, no
timestamp-shaped line and no line still carrying an inline-tag pattern.
(The unconditional claim is false: tag stripping can expose such lines —
see the counterexample.) -/
theorem convert_srt_to_txt_idem (lines : List (List Char))
    (h : ∀ o ∈ convert_srt_to_txt lines,
        stripInlineTags o = o ∧ matchesIndexLine o = false ∧ tsShape (pyStrip o) = false) :
    convert_srt_to_txt (convert_srt_to_txt lines) = convert_srt_to_txt lines := by
  have hcore : srtToTxtCore (convert_srt_to_txt lines) = srtToTxtCore lines := by
    rw [convert_srt_to_txt, srtToTxtCore, List.filterMap_append]
    have hnil : List.filterMap srtToTxtLine [([] : List Char)] = [] := by decide
    rw [hnil, List.append_nil]
    apply filterMap_id_of_mem
    intro o ho
    have hmem : o ∈ convert_srt_to_txt lines := by
      rw [convert_srt_to_txt]
      exact List.mem_append_left _ ho
    obtain ⟨htags, hidx, hts⟩ := h o hmem
    obtain ⟨hstrip, hne⟩ := srtToTxtCore_mem ho
    rw [srtToTxtLine, hidx, hts]
    simp only [Bool.or_self, Bool.false_eq_true, if_false, htags, hstrip]
    rw [if_neg (by simpa [List.isEmpty_iff] using hne)]
  show srtToTxtCore (convert_srt_to_txt lines) ++ [[]] = convert_srt_to_txt lines
  rw [hcore]
  rfl

/-- C2 counterexample: on the one-line document `<00:00>1`, tag stripping
exposes the bare digit line `1`, which a second conversion deletes, so
`toPlainText` is not idempotent. -/
theorem convert_srt_to_txt_not_idem :
    convert_srt_to_txt (convert_srt_to_txt [("<00:00>1").data])
      ≠ convert_srt_to_txt [("<00:00>1").data] := by
  decide

/-- C2 witness: on a tag-free document the hypothesis of
`convert_srt_to_txt_idem` holds and conversion is idempotent. -/
theorem convert_srt_to_txt_idem_witness :
    convert_srt_to_txt (convert_srt_to_txt
        [("1").data, ("00:00:01,000 --> 00:00:02,000").data, ("hello world").data])
      = convert_srt_to_txt
        [("1").data, ("00:00:01,000 --> 00:00:02,000").data, ("hello world").data] :=
  convert_srt_to_txt_idem _ (by decide)
/-! ## C6: idempotence of `clean_subtitle_text` -/

theorem pySubGo_eq_self_of_noMatch {f : List Char → Option (List Char × Nat)}
    {l : List Char} (h : hasMatch f l = false) :
    ∀ fuel, l.length ≤ fuel → pySubGo f fuel l = l := by
  induction l with
  | nil => intro fuel hf; cases fuel <;> rfl
  | cons c rest ih =>
    intro fuel hf
    rw [hasMatch, Bool.or_eq_false_iff] at h
    obtain ⟨h1, h2⟩ := h
    cases fuel with
    | zero => simp at hf
    | succ fuel =>
      cases hfc : f (c :: rest) with
      | some v => rw [hfc] at h1; simp at h1
      | none =>
        rw [pySubGo, hfc]
        show c :: pySubGo f fuel rest = c :: rest
        rw [ih h2 fuel (by simpa using hf)]

theorem pySub_eq_self_of_noMatch {f : List Char → Option (List Char × Nat)}
    {l : List Char} (h : hasMatch f l = false) : pySub f l = l :=
  pySubGo_eq_self_of_noMatch h l.length le_rfl

theorem collapseNlGo_ge2 (l : List Char) :
    ∀ k k', 2 ≤ k → 2 ≤ k' → collapseNlGo k l = collapseNlGo k' l := by
  induction l with
  | nil => intros; rfl
  | cons c rest ih =>
    intro k k' hk hk'
    by_cases hc : c = '\n'
    · rw [collapseNlGo, collapseNlGo, if_pos hc, if_pos hc, if_pos hk, if_pos hk',
        ih (k + 1) (k' + 1) (by omega) (by omega)]
    · rw [collapseNlGo, collapseNlGo, if_neg hc, if_neg hc]

theorem collapseNlGo_idem (l : List Char) :
    ∀ k, collapseNlGo k (collapseNlGo k l) = collapseNlGo k l := by
  induction l with
  | nil => intro k; rfl
  | cons c rest ih =>
    intro k
    by_cases hc : c = '\n'
    · by_cases hk : 2 ≤ k
      · rw [collapseNlGo, if_pos hc, if_pos hk,
          collapseNlGo_ge2 (collapseNlGo (k + 1) rest) k (k + 1) hk (by omega), ih (k + 1)]
      · rw [collapseNlGo, if_pos hc, if_neg hk]
        rw [collapseNlGo, if_pos hc, if_neg hk, ih (k + 1)]
    · rw [collapseNlGo, if_neg hc]
      rw [collapseNlGo, if_neg hc, ih 0]

theorem collapseNl_idem (l : List Char) : collapseNl (collapseNl l) = collapseNl l :=
  collapseNlGo_idem l 0

/-- C6: the sanitizer is idempotent on every text whose sanitized form no
longer contains an advertisement-marker match; the newline collapse is
idempotent unconditionally.  (The unconditional claim is false: removing
one advertisement run can splice together a new marker — see the
counterexample.) -/
theorem clean_subtitle_text_idem (t : List Char)
    (h : hasMatch adMatch (clean_subtitle_text t) = false) :
    clean_subtitle_text (clean_subtitle_text t) = clean_subtitle_text t := by
  show collapseNl (adSub (clean_subtitle_text t)) = clean_subtitle_text t
  rw [adSub, pySub_eq_self_of_noMatch h]
  show collapseNl (collapseNl (adSub t)) = clean_subtitle_text t
  rw [collapseNl_idem]
  rfl

/-- C6 counterexample: removing `[Advertisement]x\n` from
`[Adver[Advertisement]x\ntisement]y\n` splices together a fresh
`[Advertisement]y\n` run, which only a second sanitizer pass removes. -/
theorem clean_subtitle_text_not_idem :
    clean_subtitle_text (clean_subtitle_text (("[Adver[Advertisement]x\ntisement]y\n").data))
      ≠ clean_subtitle_text (("[Adver[Advertisement]x\ntisement]y\n").data) := by
  decide

/-- C6 witness: a text with an ordinary advertisement run and a long
newline run satisfies the hypothesis, and sanitizing it twice is a
no-op. -/
theorem clean_subtitle_text_idem_witness :
    clean_subtitle_text (clean_subtitle_text (("intro\n\n\n\n[Advertisement] buy now\noutro\n").data))
      = clean_subtitle_text (("intro\n\n\n\n[Advertisement] buy now\noutro\n").data) :=
  clean_subtitle_text_idem _ (by decide)
/-! ## C5: retry ceilings and backoff -/

theorem runRetryFrom_attempts_le {α : Type} (p : RetryPolicy)
    (f : Nat → Except (List Char) α) :
    ∀ budget attempt, (runRetryFrom p f attempt budget).2.1 ≤ budget := by
  intro budget
  induction budget using Nat.strong_induction_on with
  | _ budget ih =>
    intro attempt
    match budget with
    | 0 => simp [runRetryFrom]
    | 1 => simp [runRetryFrom]
    | remaining + 2 =>
      rw [runRetryFrom]
      cases f attempt with
      | ok a => simp
      | error e =>
        have h := ih (remaining + 1) (by omega) (attempt + 1)
        simp only []
        omega

theorem runRetryFrom_allFail {α : Type} (e : List Char) :
    ∀ budget attempt (p : RetryPolicy),
      runRetryFrom p (fun _ => (Except.error e : Except (List Char) α)) attempt budget
        = (if budget = 0 then Except.error (("retry ceiling exhausted").data) else Except.error e,
           budget,
           (List.range' attempt (budget - 1)).map
             (fun k => wait_exponential p.multiplier p.waitMin p.waitMax k)) := by
  intro budget
  induction budget using Nat.strong_induction_on with
  | _ budget ih =>
    intro attempt p
    match budget with
    | 0 => simp [runRetryFrom]
    | 1 => simp [runRetryFrom]
    | remaining + 2 =>
      rw [runRetryFrom, ih (remaining + 1) (by omega) (attempt + 1)]
      simp [List.range'_succ]

/-- C5 counterexample: the retry decorator of the download-based
extractor call (`download_subtitles`, src/app.py line 260) has a ceiling
of 3 attempts, not the 5 the claim states. -/
theorem download_subtitles_retry_not_five :
    download_subtitles_retry.maxAttempts = 3 ∧ ¬download_subtitles_retry.maxAttempts = 5 := by
  decide

/-- C5: both remote calls are wrapped in bounded exponential-backoff
retry with the same ceiling of 3 attempts and the same
`wait_exponential(multiplier=1, min=1, max=5)` schedule: at most 3
attempts are ever made, a run in which every attempt fails makes exactly
3 attempts with backoff waits [2, 4], and the wait after attempt `k + 1`
is the doubling `2 ^ (k + 1)` capped at 5 seconds. -/
theorem retry_ceilings_and_backoff {α : Type} (f : Nat → Except (List Char) α)
    (e : List Char) (k : Nat) :
    get_info_retry.maxAttempts = 3
    ∧ download_subtitles_retry.maxAttempts = 3
    ∧ (runRetry get_info_retry f).2.1 ≤ 3
    ∧ (runRetry download_subtitles_retry f).2.1 ≤ 3
    ∧ (runRetry download_subtitles_retry (fun _ => (Except.error e : Except (List Char) α)))
        = (Except.error e, 3, [2, 4])
    ∧ wait_exponential 1 1 5 (k + 1) = min (2 ^ (k + 1)) 5
    ∧ wait_exponential 1 1 5 (k + 2) = min (2 * 2 ^ (k + 1)) 5 := by
  refine ⟨rfl, rfl, runRetryFrom_attempts_le _ f 3 1, runRetryFrom_attempts_le _ f 3 1, ?_, ?_, ?_⟩
  · rw [runRetry, runRetryFrom_allFail]
    simp only [download_subtitles_retry]
    norm_num [List.range'_succ, wait_exponential]
  · rw [wait_exponential]
    have h2 : 2 ≤ 2 ^ (k + 1) := Nat.one_lt_two_pow_iff.mpr (by omega)
    simp only [Nat.one_mul]
    omega
  · rw [wait_exponential]
    have h2 : 2 ≤ 2 ^ (k + 2) := Nat.one_lt_two_pow_iff.mpr (by omega)
    have h3 : 2 ^ (k + 2) = 2 * 2 ^ (k + 1) := by ring
    simp only [Nat.one_mul]
    omega
/-! ## C8: `convert_vtt_to_srt` -/

theorem tsDotMatch_none_of_digits {l : List Char} (h : l.all Char.isDigit = true) :
    tsDotMatch l = none := by
  rcases l with - | ⟨a1, l⟩; · rfl
  rcases l with - | ⟨a2, l⟩; · rfl
  rcases l with - | ⟨b1, l⟩; · rfl
  rcases l with - | ⟨a3, l⟩; · rfl
  rcases l with - | ⟨a4, l⟩; · rfl
  rcases l with - | ⟨b2, l⟩; · rfl
  rcases l with - | ⟨a5, l⟩; · rfl
  rcases l with - | ⟨a6, l⟩; · rfl
  rcases l with - | ⟨d, l⟩; · rfl
  rcases l with - | ⟨m1, l⟩; · rfl
  rcases l with - | ⟨m2, l⟩; · rfl
  rcases l with - | ⟨m3, rest⟩; · rfl
  have hb1 : b1.isDigit = true := by
    simp only [List.all_cons, Bool.and_eq_true] at h
    tauto
  have hbne : ¬(b1 = ':') := by
    rintro rfl
    exact absurd hb1 (by decide)
  simp [tsDotMatch, hbne]

theorem all_digit_noTsDotMatch {l : List Char} (h : l.all Char.isDigit = true) :
    hasMatch tsDotMatch l = false := by
  induction l with
  | nil => rfl
  | cons c rest ih =>
    rw [List.all_cons, Bool.and_eq_true] at h
    rw [hasMatch, tsDotMatch_none_of_digits (by rw [List.all_cons, Bool.and_eq_true]; exact h),
      ih h.2]
    rfl

theorem subTsDot_digits {l : List Char} (h : l.all Char.isDigit = true) :
    subTsDot l = l :=
  pySub_eq_self_of_noMatch (all_digit_noTsDotMatch h)

/-- C8: `convert_vtt_to_srt` drops the WEBVTT banner and `Kind:` /
`Language:` header lines and applies the `hh:mm:ss.mmm → hh:mm:ss,mmm`
substitution to every kept line (text lines included, not only timestamp
lines); index lines, being pure digit runs, are preserved verbatim.
(The claim's "all other line structure preserved verbatim" is false for
header lines and for text lines containing a timestamp-shaped token —
see the counterexample.) -/
theorem convert_vtt_to_srt_spec (lines : List (List Char)) (l : List Char)
    (hl : l.all Char.isDigit = true) :
    convert_vtt_to_srt lines
      = (lines.filter (fun x => !(isVttHeaderLine x))).map subTsDot
    ∧ subTsDot l = l := by
  constructor
  · induction lines with
    | nil => rfl
    | cons a rest ih =>
      rw [convert_vtt_to_srt, List.foldr_cons, List.filter_cons]
      by_cases ha : isVttHeaderLine a = true
      · rw [if_pos ha, if_neg (by simp [ha])]
        exact ih
      · have ha' : isVttHeaderLine a = false := by simpa using ha
        rw [if_neg (by simp [ha']), if_pos (by simp [ha']), List.map_cons]
        exact congrArg (fun x => subTsDot a :: x) ih
  · exact subTsDot_digits hl

/-- C8 counterexample: the conversion deletes the `WEBVTT` banner line
and rewrites a timestamp-shaped token inside an ordinary text line, so
non-timestamp line structure is not preserved verbatim. -/
theorem convert_vtt_to_srt_not_verbatim :
    (("WEBVTT").data ∈
        [("WEBVTT").data, ("1").data, ("00:00:01.000 --> 00:00:02.000").data,
          ("see 00:01:02.500 here").data]
      ∧ ("see 00:01:02.500 here").data ∈
        [("WEBVTT").data, ("1").data, ("00:00:01.000 --> 00:00:02.000").data,
          ("see 00:01:02.500 here").data])
    ∧ ¬ ("WEBVTT").data ∈
        convert_vtt_to_srt
          [("WEBVTT").data, ("1").data, ("00:00:01.000 --> 00:00:02.000").data,
            ("see 00:01:02.500 here").data]
    ∧ ¬ ("see 00:01:02.500 here").data ∈
        convert_vtt_to_srt
          [("WEBVTT").data, ("1").data, ("00:00:01.000 --> 00:00:02.000").data,
            ("see 00:01:02.500 here").data] := by
  decide

/-- C8 witness: the characterisation applied to a concrete document and
the concrete index line `12`. -/
theorem convert_vtt_to_srt_spec_witness :
    (convert_vtt_to_srt [("WEBVTT").data, ("12").data]
      = ([("WEBVTT").data, ("12").data].filter (fun x => !(isVttHeaderLine x))).map subTsDot)
    ∧ subTsDot (("12").data) = ("12").data :=
  convert_vtt_to_srt_spec [("WEBVTT").data, ("12").data] (("12").data) (by decide)
/-! ## C4: `find_subtitle_file` -/

/-- C4 counterexample: `find_subtitle_file` takes no requested-language
argument and performs no language matching: with two caption files for
the same video, the result is whichever file the directory enumeration
lists first, not a requested language. -/
theorem find_subtitle_file_order_dependent :
    find_subtitle_file [("T.fr.srt").data, ("T.en.srt").data] (("T").data) (("srt").data)
      = some ((("T.fr.srt").data), (("fr").data))
    ∧ find_subtitle_file [("T.en.srt").data, ("T.fr.srt").data] (("T").data) (("srt").data)
      = some ((("T.en.srt").data), (("en").data)) := by
  decide

/-- C4: the pattern priority list is fixed and extension-based only —
requested format, its `.auto` variant, then `.srt`, `.auto.srt`, `.vtt`,
`.auto.vtt`, every one wildcarding the language.  Whenever some file
matches the first (requested-format) pattern, the result is the first
such file in directory-enumeration order, with the language token parsed
from its name; no requested-language priority exists. -/
theorem find_subtitle_file_first_pattern (files : List (List Char)) (base fmt : List Char)
    (h : files.any (fun f => globMatch1 (base ++ (".").data) ((".").data ++ fmt) f) = true) :
    find_subtitle_file files base fmt
      = ((files.filter (fun f => globMatch1 (base ++ (".").data) ((".").data ++ fmt) f)).head?).map
          (fun m => (m, selectedLanguage m)) := by
  rw [find_subtitle_file, subtitlePatterns, List.findSome?_cons]
  cases hf : files.filter (fun f => globMatch1 (base ++ (".").data) ((".").data ++ fmt) f) with
  | nil =>
    obtain ⟨f, hmem, hglob⟩ := List.any_eq_true.mp h
    have : f ∈ ([] : List (List Char)) := by
      rw [← hf]
      exact List.mem_filter.mpr ⟨hmem, hglob⟩
    cases this
  | cons m ms =>
    rfl

/-- C4 witness: with a single matching file the characterisation applies
and yields that file with its parsed language. -/
theorem find_subtitle_file_first_pattern_witness :
    find_subtitle_file [("T.en.srt").data] (("T").data) (("srt").data)
      = (([("T.en.srt").data].filter
            (fun f => globMatch1 ((("T").data) ++ (".").data) ((".").data ++ (("srt").data)) f)).head?).map
          (fun m => (m, selectedLanguage m)) :=
  find_subtitle_file_first_pattern [("T.en.srt").data] (("T").data) (("srt").data) (by decide)
/-! ## C3: per-item error handling in the batch loop -/

theorem containsSeq_inside (u p v : List Char) : containsSeq p (u ++ (p ++ v)) = true :=
  containsSeq_append_left u (containsSeq_self_append p v)

theorem processEntry_exc (t v m : List Char) :
    processEntry ⟨t, v, FetchOutcome.exc m⟩
      = (if containsSeq signInText m then
           ([Msg.error ((("YouTube requires sign-in for '").data ++ t ++ ("' (").data
             ++ v ++ ("). Upload a cookies file or disable VPN.").data))], none)
         else
           ([Msg.warning ((("Error downloading subtitles for '").data ++ t
             ++ ("': ").data ++ m))], none)) := rfl

theorem processEntry_exc_snd (t v m : List Char) :
    (processEntry ⟨t, v, FetchOutcome.exc m⟩).2 = none := by
  rw [processEntry_exc]
  split <;> rfl

theorem processEntry_exc_len (t v m : List Char) :
    (processEntry ⟨t, v, FetchOutcome.exc m⟩).1.length = 1 := by
  rw [processEntry_exc]
  split <;> rfl

theorem downloadLoop_append (a b : List Entry) :
    downloadLoop (a ++ b)
      = ((downloadLoop a).1 ++ (downloadLoop b).1, (downloadLoop a).2 ++ (downloadLoop b).2) := by
  induction a with
  | nil => simp [downloadLoop]
  | cons e rest ih =>
    rw [List.cons_append, downloadLoop, downloadLoop, ih]
    simp [List.append_assoc]

theorem allExcEntries_no_files (l : List (List Char × List Char × List Char)) :
    (downloadLoop (allExcEntries l)).2 = [] := by
  induction l with
  | nil => rfl
  | cons x rest ih =>
    rw [allExcEntries, List.map_cons, downloadLoop]
    show ((processEntry _).2.toList ++ (downloadLoop (allExcEntries rest)).2) = []
    rw [ih, List.append_nil, processEntry_exc_snd]
    rfl

/-- C3 counterexample: an item whose fetch raises a sign-in-demand
exception is reported through `st.error`, not `st.warning` — the loop
emits exactly one message for it and no warning at all. -/
theorem downloadLoop_signIn_not_warning :
    ((downloadLoop [⟨("Video A").data, ("id1").data,
          FetchOutcome.exc (("Sign in to confirm you are not a bot").data)⟩]).1.any
        (fun m => m.isWarningMsg)) = false
    ∧ (downloadLoop [⟨("Video A").data, ("id1").data,
          FetchOutcome.exc (("Sign in to confirm you are not a bot").data)⟩]).1.length = 1
    ∧ (downloadLoop [⟨("Video A").data, ("id1").data,
          FetchOutcome.exc (("Sign in to confirm you are not a bot").data)⟩]).2 = [] := by
  decide

/-- C3: an exception for one item never aborts the batch — the collected
files are exactly those of the other items — and it is converted into a
single message naming that item's title: a warning in general, an
`st.error` when the exception is a sign-in demand.  A batch in which
every item raises collects nothing, and `main` then reports the single
top-level "No subtitles were downloaded" failure, distinct from and in
addition to the per-item messages. -/
theorem downloadLoop_item_errors_skip (pre post : List Entry) (t v m : List Char)
    (l : List (List Char × List Char × List Char)) :
    (downloadLoop (pre ++ ⟨t, v, FetchOutcome.exc m⟩ :: post)).2
      = (downloadLoop (pre ++ post)).2
    ∧ (downloadLoop (pre ++ ⟨t, v, FetchOutcome.exc m⟩ :: post)).1
      = (downloadLoop pre).1
          ++ (processEntry ⟨t, v, FetchOutcome.exc m⟩).1 ++ (downloadLoop post).1
    ∧ ((processEntry ⟨t, v, FetchOutcome.exc m⟩).1.all
          (fun msg => containsSeq t msg.text)) = true
    ∧ ((processEntry ⟨t, v, FetchOutcome.exc m⟩).1.all
          (fun msg => if containsSeq signInText m then !msg.isWarningMsg
                      else msg.isWarningMsg)) = true
    ∧ (processEntry ⟨t, v, FetchOutcome.exc m⟩).1.length = 1
    ∧ (mainCollect (allExcEntries l)).1
      = (downloadLoop (allExcEntries l)).1 ++ [mainNoSubsError]
    ∧ (mainCollect (allExcEntries l)).2 = none := by
  refine ⟨?_, ?_, ?_, ?_, processEntry_exc_len t v m, ?_, ?_⟩
  · rw [downloadLoop_append, downloadLoop_append, downloadLoop]
    show ((downloadLoop pre).2 ++ ((processEntry _).2.toList ++ (downloadLoop post).2))
      = (downloadLoop pre).2 ++ (downloadLoop post).2
    rw [processEntry_exc_snd]
    rfl
  · rw [downloadLoop_append, downloadLoop]
    show (downloadLoop pre).1 ++ ((processEntry _).1 ++ (downloadLoop post).1) = _
    rw [List.append_assoc]
  · rw [processEntry_exc]
    by_cases hs : containsSeq signInText m = true
    · rw [if_pos hs, List.all_cons, List.all_nil, Msg.text]
      simp only [Bool.and_true]
      simp only [List.append_assoc]
      exact containsSeq_inside _ _ _
    · rw [if_neg hs, List.all_cons, List.all_nil, Msg.text]
      simp only [Bool.and_true]
      simp only [List.append_assoc]
      exact containsSeq_inside _ _ _
  · rw [processEntry_exc]
    by_cases hs : containsSeq signInText m = true
    · rw [if_pos hs]
      simp [hs, Msg.isWarningMsg]
    · rw [if_neg hs]
      simp only [Bool.not_eq_true] at hs
      simp [hs, Msg.isWarningMsg]
  · rw [mainCollect, if_pos (by rw [allExcEntries_no_files]; rfl)]
  · rw [mainCollect, if_pos (by rw [allExcEntries_no_files]; rfl)]
/-! ## C9: cookie-file cleanup on every exit path -/

/-- C9: on every exit path of the batch block — completion, empty
result, `ValueError`, generic exception — the `finally` clause removes
the caller-supplied cookie file (and nothing else): the resulting
filesystem is exactly `fs.erase c`, so the cookie file is gone, and a
run without a cookie file touches nothing. -/
theorem cookies_deleted_all_paths (c : Nat) (fs : Finset Nat) (exit : BatchExit) :
    (mainBatchRun (some c) fs exit).2 = fs.erase c
    ∧ c ∉ (mainBatchRun (some c) fs exit).2
    ∧ (mainBatchRun none fs exit).2 = fs := by
  have h1 : (mainBatchRun (some c) fs exit).2 = fs.erase c := by
    show mainCleanupCookies (some c) fs = fs.erase c
    rw [mainCleanupCookies]
    by_cases h : c ∈ fs
    · rw [if_pos (by simpa [os_path_exists] using h)]
      rfl
    · rw [if_neg (by simpa [os_path_exists] using h), Finset.erase_eq_of_not_mem h]
  refine ⟨h1, ?_, rfl⟩
  rw [h1]
  exact Finset.not_mem_erase c fs

/-! ## C10: totality of `get_available_subtitle_languages` -/

theorem galFinish_snd_ne_nil (timedOut : Bool) (info : YtInfo) :
    (galFinish timedOut info).2.isEmpty = false := by
  rw [galFinish]
  by_cases ht : timedOut = true
  · rw [if_pos ht]
    rfl
  · rw [if_neg ht]
    show (if ((info.subtitles ++ info.automatic_captions).dedup.isEmpty) = true
        then allSentinel else (info.subtitles ++ info.automatic_captions).dedup).isEmpty = false
    by_cases hd : (info.subtitles ++ info.automatic_captions).dedup.isEmpty = true
    · rw [if_pos hd]
      rfl
    · rw [if_neg hd]
      simpa using hd

/-- C10: the language-listing operation is total and never returns an
empty list: every branch — source error (sign-in demand included),
playlist without a first video id, timeout, and a source reporting no
manual and no automatic tracks — yields the `['all']` sentinel, and the
successful branch yields the deduplicated non-empty key list. -/
theorem get_available_subtitle_languages_total (isPlaylist timedOut : Bool)
    (first second : ExtractOutcome) (m : List Char) (info : YtInfo) :
    (get_available_subtitle_languages isPlaylist timedOut first second).2.isEmpty = false
    ∧ (get_available_subtitle_languages isPlaylist timedOut (ExtractOutcome.err m) second).2
        = allSentinel
    ∧ (galFinish true info).2 = allSentinel
    ∧ (galFinish false ⟨info.entryIds, [], []⟩).2 = allSentinel := by
  refine ⟨?_, rfl, rfl, rfl⟩
  cases first with
  | err m2 => rfl
  | ok info0 =>
    cases isPlaylist with
    | false => exact galFinish_snd_ne_nil timedOut info0
    | true =>
      unfold get_available_subtitle_languages
      dsimp only
      cases hid : get_first_video_id info0 with
      | none => rfl
      | some vid =>
        cases second with
        | err m2 => rfl
        | ok info2 => exact galFinish_snd_ne_nil timedOut info2
/-! ## C7: the sanitizer and marker-free lines -/

theorem containsSeq_nil_left (l : List Char) : containsSeq [] l = true := by
  cases l <;> rfl

theorem containsSeq_cons_false {p l : List Char} {c : Char}
    (h : containsSeq p (c :: l) = false) : containsSeq p l = false := by
  by_cases h2 : containsSeq p l = true
  · rw [containsSeq_cons c h2] at h
    cases h
  · simpa using h2

theorem startsWith_take {p l : List Char} (h : startsWith p l = true) :
    l.take p.length = p := by
  induction p generalizing l with
  | nil => rfl
  | cons a ps ih =>
    cases l with
    | nil => cases h
    | cons c cs =>
      rw [startsWith, Bool.and_eq_true, decide_eq_true_eq] at h
      rw [List.length_cons, List.take_succ_cons, ih h.2, h.1]

theorem startsWith_decomp {p l : List Char} (h : startsWith p l = true) :
    l = p ++ l.drop p.length := by
  conv_lhs => rw [← List.take_append_drop p.length l]
  rw [startsWith_take h]

theorem startsWith_split {p : List Char} :
    ∀ {x v : List Char}, startsWith p (x ++ v) = true →
      startsWith p x = true ∨ ∃ q, p = x ++ q ∧ q ≠ [] ∧ startsWith q v = true := by
  intro x
  induction x generalizing p with
  | nil =>
    intro v h
    cases p with
    | nil => exact Or.inl rfl
    | cons b ps => exact Or.inr ⟨b :: ps, rfl, by simp, h⟩
  | cons a x' ih =>
    intro v h
    cases p with
    | nil => exact Or.inl rfl
    | cons b ps =>
      rw [List.cons_append, startsWith, Bool.and_eq_true] at h
      rcases ih h.2 with h3 | ⟨q, hq1, hq2, hq3⟩
      · exact Or.inl (by rw [startsWith, Bool.and_eq_true]; exact ⟨h.1, h3⟩)
      · refine Or.inr ⟨q, ?_, hq2, hq3⟩
        rw [hq1, List.cons_append]
        have hb := (decide_eq_true_eq).mp h.1
        rw [hb]

theorem splitChar_ne_nil (c : Char) : ∀ l, splitChar c l ≠ [] := by
  intro l
  induction l with
  | nil => simp [splitChar]
  | cons a as ih =>
    rw [splitChar]
    cases h : splitChar c as with
    | nil => exact absurd h ih
    | cons g gs =>
      by_cases hc : a = c
      · simp [hc]
      · simp [hc]

theorem splitChar_no_sep {c : Char} : ∀ {l L : List Char}, L ∈ splitChar c l →
    L.all (fun a => !(a = c)) = true := by
  intro l
  induction l with
  | nil =>
    intro L hL
    simp only [splitChar, List.mem_singleton] at hL
    rw [hL]
    rfl
  | cons a as ih =>
    intro L hL
    rw [splitChar] at hL
    rcases hsp : splitChar c as with - | ⟨g, gs⟩
    · exact absurd hsp (splitChar_ne_nil c as)
    · rw [hsp] at hL
      dsimp only at hL
      by_cases hc : a = c
      · rw [if_pos hc] at hL
        rcases List.mem_cons.mp hL with rfl | hL2
        · rfl
        · exact ih (by rw [hsp]; exact hL2)
      · rw [if_neg hc] at hL
        rcases List.mem_cons.mp hL with rfl | hL2
        · have hg : g ∈ splitChar c as := by rw [hsp]; exact List.mem_cons_self g gs
          rw [List.all_cons, ih hg]
          simpa using hc
        · exact ih (by rw [hsp]; exact List.mem_cons_of_mem g hL2)

theorem joinNl_splitChar (l : List Char) :
    ∀ g gs, splitChar '\n' l = g :: gs →
      (gs = [] ∧ l = g) ∨ (∃ w, l = g ++ '\n' :: w ∧ splitChar '\n' w = gs) := by
  induction l with
  | nil =>
    intro g gs h
    simp only [splitChar, List.cons.injEq] at h
    exact Or.inl ⟨h.2.symm, h.1⟩
  | cons a as ih =>
    intro g gs h
    rw [splitChar] at h
    rcases hsp : splitChar '\n' as with - | ⟨g0, gs0⟩
    · exact absurd hsp (splitChar_ne_nil '\n' as)
    · rw [hsp] at h
      dsimp only at h
      by_cases hc : a = '\n'
      · rw [if_pos hc] at h
        rw [List.cons.injEq] at h
        refine Or.inr ⟨as, ?_, ?_⟩
        · rw [← h.1, hc]
          rfl
        · rw [hsp, h.2]
      · rw [if_neg hc] at h
        rw [List.cons.injEq] at h
        obtain ⟨hg, hgs⟩ := h
        rcases ih g0 gs0 hsp with ⟨h1, h2⟩ | ⟨w, h1, h2⟩
        · refine Or.inl ⟨by rw [← hgs]; exact h1, ?_⟩
          rw [← hg, h2]
        · refine Or.inr ⟨w, ?_, by rw [h2, hgs]⟩
          rw [← hg, h1]
          rfl
theorem startsWith_refl (p : List Char) : startsWith p p = true := by
  have h := startsWith_append p []
  simpa using h

theorem pySubGo_nil (f : List Char → Option (List Char × Nat)) (k : Nat) :
    pySubGo f k [] = [] := by
  cases k <;> rfl

theorem splitChar_append_nl {u : List Char} (hu : u.all (fun a => !(a = '\n')) = true)
    (w : List Char) : splitChar '\n' (u ++ '\n' :: w) = u :: splitChar '\n' w := by
  induction u with
  | nil =>
    rw [List.nil_append, splitChar]
    rcases hsp : splitChar '\n' w with - | ⟨g, gs⟩
    · exact absurd hsp (splitChar_ne_nil _ _)
    · dsimp only
      rw [if_pos rfl, ← hsp]
  | cons a u' ih =>
    rw [List.all_cons, Bool.and_eq_true] at hu
    have ha : ¬(a = '\n') := by simpa using hu.1
    rw [List.cons_append, splitChar]
    rcases hsp : splitChar '\n' (u' ++ '\n' :: w) with - | ⟨g, gs⟩
    · exact absurd hsp (splitChar_ne_nil _ _)
    · dsimp only
      rw [if_neg ha]
      rw [ih hu.2] at hsp
      rw [List.cons.injEq] at hsp
      rw [hsp.1, hsp.2]

theorem findNlIdx_some : ∀ {l : List Char} {j : Nat}, findNlIdx l = some j →
    ∃ u w, l = u ++ '\n' :: w ∧ u.length = j ∧ u.all (fun a => !(a = '\n')) = true := by
  intro l
  induction l with
  | nil => intro j h; cases h
  | cons c rest ih =>
    intro j h
    rw [findNlIdx] at h
    by_cases hc : c = '\n'
    · rw [if_pos hc] at h
      rw [Option.some_inj] at h
      refine ⟨[], rest, ?_, h, rfl⟩
      rw [hc]
      rfl
    · rw [if_neg hc] at h
      cases hr : findNlIdx rest with
      | none => rw [hr] at h; cases h
      | some j0 =>
        rw [hr] at h
        have hj : j0 + 1 = j := by simpa using h
        obtain ⟨u, w, h1, h2, h3⟩ := ih hr
        refine ⟨c :: u, w, by rw [h1]; rfl, by simp [h2, hj], ?_⟩
        rw [List.all_cons, h3]
        simp [hc]

theorem adMatch_eq_none_of {l : List Char} (h : startsWith adMarker l = false) :
    adMatch l = none := by
  rw [adMatch, if_neg (by simp [h])]

theorem adMatch_some {l rep : List Char} {n : Nat} (h : adMatch l = some (rep, n)) :
    rep = [] ∧ ∃ u w, l = u ++ '\n' :: w ∧ n = u.length + 1
      ∧ u.all (fun a => !(a = '\n')) = true ∧ startsWith adMarker u = true := by
  rw [adMatch] at h
  by_cases hs : startsWith adMarker l = true
  · rw [if_pos hs] at h
    cases hf : findNlIdx (l.drop adMarker.length) with
    | none => rw [hf] at h; cases h
    | some j =>
      rw [hf] at h
      rw [Option.some_inj, Prod.mk.injEq] at h
      obtain ⟨hrep, hn⟩ := h
      obtain ⟨u', w, h1, h2, h3⟩ := findNlIdx_some hf
      refine ⟨hrep.symm, adMarker ++ u', w, ?_, ?_, ?_, startsWith_append _ _⟩
      · conv_lhs => rw [startsWith_decomp hs, h1]
        rw [List.append_assoc]
      · rw [← hn, List.length_append, h2]
      · rw [List.all_append, h3, Bool.and_true]
        decide
  · rw [if_neg hs] at h
    cases h

theorem pySubGo_safe_prefix :
    ∀ (g : List Char) (fuel : Nat) (v : List Char), (g ++ v).length ≤ fuel →
      g.all (fun a => !(a = '\n')) = true → containsSeq adMarker g = false →
      (v = [] ∨ v.head? = some '\n') →
      pySubGo adMatch fuel (g ++ v) = g ++ pySubGo adMatch (fuel - g.length) v := by
  intro g
  induction g with
  | nil => intro fuel v h1 h2 h3 h4; simp
  | cons a g' ih =>
    intro fuel v h1 h2 h3 h4
    have hnone : adMatch (a :: (g' ++ v)) = none := by
      apply adMatch_eq_none_of
      by_contra hsw
      rw [Bool.not_eq_false] at hsw
      rcases startsWith_split (p := adMarker) (x := a :: g') (v := v) hsw
        with hleft | ⟨q, hq1, hq2, hq3⟩
      · rw [containsSeq_of_startsWith hleft] at h3
        cases h3
      · rcases h4 with rfl | hv
        · cases q with
          | nil => exact hq2 rfl
          | cons q0 q' => cases hq3
        · cases v with
          | nil => cases hv
          | cons v0 v' =>
            have hv0 : v0 = '\n' := by simpa using hv
            cases q with
            | nil => exact hq2 rfl
            | cons q0 q' =>
              rw [startsWith, Bool.and_eq_true, decide_eq_true_eq] at hq3
              have hmem : ('\n' : Char) ∈ adMarker := by
                rw [hq1]
                apply List.mem_append_right
                rw [← hv0, ← hq3.1]
                exact List.mem_cons_self q0 q'
              exact absurd hmem (by decide)
    cases fuel with
    | zero => simp at h1
    | succ fuel0 =>
      rw [List.all_cons, Bool.and_eq_true] at h2
      rw [List.cons_append, pySubGo, hnone]
      show a :: pySubGo adMatch fuel0 (g' ++ v)
        = a :: (g' ++ pySubGo adMatch (fuel0 + 1 - (a :: g').length) v)
      have harith : fuel0 + 1 - (a :: g').length = fuel0 - g'.length := by
        rw [List.length_cons]
        omega
      rw [harith, ih fuel0 v (by simpa using h1) h2.2 (containsSeq_cons_false h3) h4]
theorem collapseNlGo_nonl_prefix {L : List Char} (hne : L ≠ [])
    (hL : L.all (fun a => !(a = '\n')) = true) :
    ∀ k v, collapseNlGo k (L ++ v) = L ++ collapseNlGo 0 v := by
  induction L with
  | nil => cases hne rfl
  | cons a L' ih =>
    intro k v
    rw [List.all_cons, Bool.and_eq_true] at hL
    have ha : ¬(a = '\n') := by simpa using hL.1
    rw [List.cons_append, collapseNlGo, if_neg ha]
    cases L' with
    | nil => rfl
    | cons b L'' =>
      rw [ih (by simp) hL.2 0 v]
      rfl

theorem collapseNlGo_preserve {L : List Char}
    (hL : L.all (fun a => !(a = '\n')) = true) :
    ∀ (x : List Char) (k : Nat), containsSeq L x = true →
      containsSeq L (collapseNlGo k x) = true := by
  intro x
  induction x with
  | nil =>
    intro k h
    cases L with
    | nil => exact containsSeq_nil_left _
    | cons a t => cases h
  | cons c rest ih =>
    intro k h
    rw [containsSeq, Bool.or_eq_true] at h
    rcases h with hsw | hcs
    · cases L with
      | nil => exact containsSeq_nil_left _
      | cons a t =>
        have hdec := startsWith_decomp hsw
        rw [hdec, collapseNlGo_nonl_prefix (by simp) hL]
        exact containsSeq_self_append _ _
    · by_cases hc : c = '\n'
      · by_cases hk : 2 ≤ k
        · rw [collapseNlGo, if_pos hc, if_pos hk]
          exact ih (k + 1) hcs
        · rw [collapseNlGo, if_pos hc, if_neg hk]
          exact containsSeq_cons _ (ih (k + 1) hcs)
      · rw [collapseNlGo, if_neg hc]
        exact containsSeq_cons _ (ih 0 hcs)

theorem pySubGo_line_preserve :
    ∀ (fuel : Nat) (l L : List Char), l.length ≤ fuel → L ∈ splitChar '\n' l →
      containsSeq adMarker L = false → containsSeq L (pySubGo adMatch fuel l) = true := by
  intro fuel
  induction fuel with
  | zero =>
    intro l L h1 h2 h3
    cases l with
    | nil =>
      rw [splitChar, List.mem_singleton] at h2
      rw [h2, pySubGo_nil]
      exact containsSeq_nil_left _
    | cons c rest => simp at h1
  | succ fuel ih =>
    intro l L h1 h2 h3
    cases l with
    | nil =>
      rw [splitChar, List.mem_singleton] at h2
      rw [h2, pySubGo_nil]
      exact containsSeq_nil_left _
    | cons c rest =>
      cases hm : adMatch (c :: rest) with
      | some pr =>
        obtain ⟨rep, n⟩ := pr
        obtain ⟨hrep, u, w, hdec, hn, hunl, hsw⟩ := adMatch_some hm
        rw [pySubGo, hm]
        show containsSeq L (rep ++ pySubGo adMatch fuel ((c :: rest).drop n)) = true
        have hdrop : (c :: rest).drop n = w := by
          rw [hdec, hn, show u ++ '\n' :: w = (u ++ ['\n']) ++ w by simp,
            show u.length + 1 = (u ++ ['\n']).length by simp]
          exact List.drop_left _ _
        have hsp : splitChar '\n' (c :: rest) = u :: splitChar '\n' w := by
          rw [hdec]
          exact splitChar_append_nl hunl w
        rw [hsp] at h2
        rcases List.mem_cons.mp h2 with rfl | h2t
        · rw [containsSeq_of_startsWith hsw] at h3
          cases h3
        · have hwlen : w.length ≤ fuel := by
            have hl : (c :: rest).length = u.length + 1 + w.length := by
              rw [hdec]
              simp [List.length_append]
              omega
            omega
          rw [hrep, List.nil_append, hdrop]
          exact ih w L hwlen h2t h3
      | none =>
        rw [pySubGo, hm]
        show containsSeq L (c :: pySubGo adMatch fuel rest) = true
        have hrlen : rest.length ≤ fuel := by simpa using h1
        by_cases hc : c = '\n'
        · have hsp : splitChar '\n' (c :: rest) = [] :: splitChar '\n' rest := by
            subst hc
            rw [splitChar]
            rcases hsr : splitChar '\n' rest with - | ⟨g, gs⟩
            · exact absurd hsr (splitChar_ne_nil _ _)
            · dsimp only
              rw [if_pos rfl, ← hsr]
          rw [hsp] at h2
          rcases List.mem_cons.mp h2 with rfl | h2t
          · exact containsSeq_nil_left _
          · exact containsSeq_cons _ (ih rest L hrlen h2t h3)
        · rcases hsr : splitChar '\n' rest with - | ⟨g, gs⟩
          · exact absurd hsr (splitChar_ne_nil _ _)
          · have hsp : splitChar '\n' (c :: rest) = (c :: g) :: gs := by
              rw [splitChar, hsr]
              dsimp only
              rw [if_neg hc]
            rw [hsp] at h2
            rcases List.mem_cons.mp h2 with rfl | h2t
            · have hg_nonl : g.all (fun a => !(a = '\n')) = true :=
                splitChar_no_sep (by rw [hsr]; exact List.mem_cons_self g gs)
              have hgm : containsSeq adMarker g = false := containsSeq_cons_false h3
              rcases joinNl_splitChar rest g gs hsr with ⟨hgs, hrest⟩ | ⟨w, hrest, hsw2⟩
              · have he := pySubGo_safe_prefix g fuel []
                  (by rw [List.append_nil]; rw [hrest] at hrlen; exact hrlen)
                  hg_nonl hgm (Or.inl rfl)
                rw [List.append_nil] at he
                rw [hrest, he, pySubGo_nil, List.append_nil]
                exact containsSeq_of_startsWith
                  (by rw [startsWith, startsWith_refl]; simp)
              · have he := pySubGo_safe_prefix g fuel ('\n' :: w)
                  (by rw [← hrest]; exact hrlen) hg_nonl hgm (Or.inr rfl)
                rw [hrest, he]
                apply containsSeq_of_startsWith
                rw [startsWith, startsWith_append]
                simp
            · exact containsSeq_cons _
                (ih rest L hrlen (by rw [hsr]; exact List.mem_cons_of_mem g h2t) h3)

/-- C7: every line of the input that does not contain the advertisement
marker — in particular every cue index line and every cue timing line,
which never contain the marker — survives `clean_subtitle_text` verbatim
as a contiguous character run of the output.  (The removals are
marker-to-end-of-line, not whole cue blocks: see the counterexample,
where the ad cue's index and timing lines are left behind.) -/
theorem clean_subtitle_text_preserves_lines (t L : List Char)
    (hL : L ∈ splitChar '\n' t) (hm : containsSeq adMarker L = false) :
    containsSeq L (clean_subtitle_text t) = true := by
  have h1 : containsSeq L (adSub t) = true :=
    pySubGo_line_preserve t.length t L le_rfl hL hm
  exact collapseNlGo_preserve (splitChar_no_sep hL) (adSub t) 0 h1

/-- C7 counterexample: sanitizing an SRT document whose advertisement
cue is `1 / 00:00:01,000 --> 00:00:02,000 / [Advertisement] buy stuff`
removes only the marker line, leaving the ad cue's index and timing
lines orphaned in the output — the removal is not a whole
advertisement-cue block. -/
theorem clean_subtitle_text_partial_block :
    containsSeq (("buy stuff").data)
        (("1\n00:00:01,000 --> 00:00:02,000\n[Advertisement] buy stuff\n\n2\n00:00:03,000 --> 00:00:04,000\nhi\n").data)
      = true
    ∧ containsSeq (("buy stuff").data)
        (clean_subtitle_text
          (("1\n00:00:01,000 --> 00:00:02,000\n[Advertisement] buy stuff\n\n2\n00:00:03,000 --> 00:00:04,000\nhi\n").data))
      = false
    ∧ containsSeq (("1\n00:00:01,000 --> 00:00:02,000").data)
        (clean_subtitle_text
          (("1\n00:00:01,000 --> 00:00:02,000\n[Advertisement] buy stuff\n\n2\n00:00:03,000 --> 00:00:04,000\nhi\n").data))
      = true := by
  decide

/-- C7 witness: the timing line of the second cue is a marker-free line
of the document above and survives sanitization verbatim. -/
theorem clean_subtitle_text_preserves_lines_witness :
    containsSeq (("00:00:03,000 --> 00:00:04,000").data)
        (clean_subtitle_text
          (("1\n00:00:01,000 --> 00:00:02,000\n[Advertisement] buy stuff\n\n2\n00:00:03,000 --> 00:00:04,000\nhi\n").data))
      = true :=
  clean_subtitle_text_preserves_lines _ _ (by decide) (by decide)
